import Mathlib

/-!
Verification development for the sqlx-playground job queue (src/main.rs).

The embedding below follows the source: the serde-encoded tagged unions
Payload and Params with their externally tagged JSON representation, the
JobRow to DomainJob conversion (TryFrom), the batch-conversion loop of main,
the twenty-row insert of insert_jobs, and the claim statement

  UPDATE jobs SET status = 'Running'
  WHERE id IN (SELECT id FROM jobs WHERE status = 'Queued'
               ORDER BY id LIMIT n FOR UPDATE SKIP LOCKED)
  RETURNING id, status, payload, params

modelled as an atomic operation on a table state, with the lock set of a
concurrent uncommitted transaction made explicit (SKIP LOCKED removes rows
whose id is in that set from the selection). The statement in main.rs runs
directly on the pool with no surrounding transaction, so the UPDATE commits
at statement end and the returned rows are decoded client side afterwards;
claimQuery reflects that order.
-/

/-- Enumerated job status, mirroring the JOB_STATUS enum of main.rs. -/
inductive JobStatus where
  | Queued
  | Running
  | Failed
deriving DecidableEq, Repr

/-- Minimal JSON value model, covering the shapes serde_json produces for the
payload and params columns. -/
inductive JsonVal where
  | jnull
  | jbool (b : Bool)
  | jstr (s : String)
  | jobj (fields : List (String × JsonVal))

/-- Decidable equality of JSON values, by structural recursion (the deriving
handler does not treat nested inductives). -/
def JsonVal.decEq : (a b : JsonVal) → Decidable (a = b)
  | .jnull, .jnull => isTrue rfl
  | .jnull, .jbool _ => isFalse (fun h => JsonVal.noConfusion h)
  | .jnull, .jstr _ => isFalse (fun h => JsonVal.noConfusion h)
  | .jnull, .jobj _ => isFalse (fun h => JsonVal.noConfusion h)
  | .jbool _, .jnull => isFalse (fun h => JsonVal.noConfusion h)
  | .jbool a, .jbool b =>
    if h : a = b then isTrue (by rw [h]) else isFalse (fun hh => h (JsonVal.jbool.inj hh))
  | .jbool _, .jstr _ => isFalse (fun h => JsonVal.noConfusion h)
  | .jbool _, .jobj _ => isFalse (fun h => JsonVal.noConfusion h)
  | .jstr _, .jnull => isFalse (fun h => JsonVal.noConfusion h)
  | .jstr _, .jbool _ => isFalse (fun h => JsonVal.noConfusion h)
  | .jstr a, .jstr b =>
    if h : a = b then isTrue (by rw [h]) else isFalse (fun hh => h (JsonVal.jstr.inj hh))
  | .jstr _, .jobj _ => isFalse (fun h => JsonVal.noConfusion h)
  | .jobj _, .jnull => isFalse (fun h => JsonVal.noConfusion h)
  | .jobj _, .jbool _ => isFalse (fun h => JsonVal.noConfusion h)
  | .jobj _, .jstr _ => isFalse (fun h => JsonVal.noConfusion h)
  | .jobj fa, .jobj fb =>
    match go fa fb with
    | isTrue h => isTrue (by rw [h])
    | isFalse h => isFalse (fun hh => h (JsonVal.jobj.inj hh))
where go : (as bs : List (String × JsonVal)) → Decidable (as = bs)
  | [], [] => isTrue rfl
  | [], _ :: _ => isFalse (fun h => List.noConfusion h)
  | _ :: _, [] => isFalse (fun h => List.noConfusion h)
  | (k, v) :: r, (k2, v2) :: r2 =>
    if hk : k = k2 then
      match JsonVal.decEq v v2, go r r2 with
      | isTrue hv, isTrue hr => isTrue (by rw [hk, hv, hr])
      | isFalse hv, _ =>
        isFalse (fun h => by
          injection h with h1 h2
          exact hv (congrArg Prod.snd h1))
      | _, isFalse hr =>
        isFalse (fun h => by
          injection h with h1 h2
          exact hr h2)
    else
      isFalse (fun h => by
        injection h with h1 h2
        exact hk (congrArg Prod.fst h1))

instance : DecidableEq JsonVal := JsonVal.decEq

/-- Decidable equality of results, used to evaluate concrete scenarios. -/
instance {e : Type} {a : Type} [DecidableEq e] [DecidableEq a] : DecidableEq (Except e a)
  | .ok x, .ok y =>
    if h : x = y then isTrue (by rw [h]) else isFalse (fun hh => h (Except.ok.inj hh))
  | .ok _, .error _ => isFalse (fun h => Except.noConfusion h)
  | .error _, .ok _ => isFalse (fun h => Except.noConfusion h)
  | .error x, .error y =>
    if h : x = y then isTrue (by rw [h]) else isFalse (fun hh => h (Except.error.inj hh))

/-- Tagged union of job bodies, mirroring the Payload enum of main.rs. -/
inductive Payload where
  | NOOP
  | SendEmail (email : String)
deriving DecidableEq, Repr

/-- Optional execution parameters, mirroring the Params enum of main.rs. -/
inductive Params where
  | NOOP
  | FollowUp (b : Bool)
deriving DecidableEq, Repr

/-- Reasons a serde decode can fail. -/
inductive DecodeError where
  | unknownVariant (tag : String)
  | invalidType
  | missingField (f : String)
deriving DecidableEq, Repr

/-- Externally tagged serde encoding of Payload: a unit variant is its name as
a string, a struct variant is a one-entry object holding its fields. -/
def Payload.encode : Payload → JsonVal
  | .NOOP => .jstr "NOOP"
  | .SendEmail email => .jobj [("SendEmail", .jobj [("email", .jstr email)])]

/-- Externally tagged serde encoding of Params: the newtype variant FollowUp
is a one-entry object holding its boolean. -/
def Params.encode : Params → JsonVal
  | .NOOP => .jstr "NOOP"
  | .FollowUp b => .jobj [("FollowUp", .jbool b)]

/-- Lookup of a named field inside an object body, as serde resolves struct
variant fields by name. -/
def findField (fields : List (String × JsonVal)) (k : String) : Option JsonVal :=
  (fields.find? (fun kv => kv.1 == k)).map (fun kv => kv.2)

/-- Serde decoding of Payload: a string must name a variant; an object must
have a single entry whose key names a variant, with the variant content as
value. Unknown tags are rejected, a unit variant takes null content, and the
SendEmail struct variant requires a string field named email. -/
def Payload.decode : JsonVal → Except DecodeError Payload
  | .jstr s =>
      if s == "NOOP" then .ok .NOOP
      else if s == "SendEmail" then .error .invalidType
      else .error (.unknownVariant s)
  | .jobj ((tag, content) :: rest) =>
      if tag == "NOOP" then
        if rest.isEmpty then
          match content with
          | .jnull => .ok .NOOP
          | _ => .error .invalidType
        else .error .invalidType
      else if tag == "SendEmail" then
        if rest.isEmpty then
          match content with
          | .jobj fields =>
            match findField fields "email" with
            | some (.jstr email) => .ok (.SendEmail email)
            | some _ => .error .invalidType
            | none => .error (.missingField "email")
          | _ => .error .invalidType
        else .error .invalidType
      else .error (.unknownVariant tag)
  | _ => .error .invalidType

/-- Serde decoding of Params, by the same externally tagged scheme; the
FollowUp newtype variant requires a boolean content. -/
def Params.decode : JsonVal → Except DecodeError Params
  | .jstr s =>
      if s == "NOOP" then .ok .NOOP
      else if s == "FollowUp" then .error .invalidType
      else .error (.unknownVariant s)
  | .jobj ((tag, content) :: rest) =>
      if tag == "NOOP" then
        if rest.isEmpty then
          match content with
          | .jnull => .ok .NOOP
          | _ => .error .invalidType
        else .error .invalidType
      else if tag == "FollowUp" then
        if rest.isEmpty then
          match content with
          | .jbool b => .ok (.FollowUp b)
          | _ => .error .invalidType
        else .error .invalidType
      else .error (.unknownVariant tag)
  | _ => .error .invalidType

/-- Variant tag carried by a JSON value under the externally tagged scheme:
the string itself, or the first key of an object. -/
def jsonTag : JsonVal → Option String
  | .jstr s => some s
  | .jobj ((tag, _) :: _) => some tag
  | _ => none

/-- Decoded row shape, mirroring the JobRow struct of main.rs. -/
structure JobRow where
  id : Int
  status : JobStatus
  payload : Payload
  params : Option Params
deriving DecidableEq, Repr

/-- Handler-facing projection, mirroring the DomainJob struct of main.rs; it
carries no params field. -/
structure DomainJob where
  identifier : String
  status : JobStatus
  payload : Payload
deriving DecidableEq, Repr

/-- Error of a failed integer narrowing, as std::num::TryFromIntError. -/
inductive TryFromIntError where
  | outOfRange
deriving DecidableEq, Repr

/-- Largest value representable in u32. -/
def u32Max : Int := 4294967295

/-- Conversion of a JobRow into a DomainJob, mirroring the TryFrom impl of
main.rs: narrow the i64 id to u32 (failing outside 0..=u32::MAX), derive the
identifier as BATCH(id / 3), copy status and payload, discard params. -/
def DomainJob.tryFrom (value : JobRow) : Except TryFromIntError DomainJob :=
  if 0 ≤ value.id ∧ value.id ≤ u32Max then
    .ok { identifier := "BATCH(" ++ toString (value.id.toNat / 3) ++ ")"
        , status := value.status
        , payload := value.payload }
  else .error .outOfRange

/-- Batch conversion loop of main.rs (the for loop over the first claim
result): each row is converted and pushed, and a conversion failure aborts
the whole loop (the source calls expect, which panics), so no batch is
produced past the first failing row. -/
def processBatch : List JobRow → Except TryFromIntError (List DomainJob)
  | [] => .ok []
  | r :: rs =>
    match DomainJob.tryFrom r with
    | .error e => .error e
    | .ok d =>
      match processBatch rs with
      | .error e => .error e
      | .ok ds => .ok (d :: ds)

/-- Stored table row: id, status, and the raw JSON columns. -/
structure Job where
  id : Int
  status : JobStatus
  payload : JsonVal
  params : Option JsonVal
deriving DecidableEq

/-- Selection phase of the claim statement: ids of rows whose status is
Queued and whose row lock is not held by another transaction (SKIP LOCKED),
ordered by id ascending, limited to n. -/
def claimSelect (n : Nat) (locked : List Int) (jobs : List Job) : List Int :=
  ((List.insertionSort (fun a b => a ≤ b)
    ((jobs.filter
      (fun j => j.status == JobStatus.Queued && !(locked.contains j.id))).map
        (fun j => j.id))).take n)

/-- Update phase of the claim statement: set status Running on the selected
ids, leaving every other row untouched. -/
def markRunning (ids : List Int) (jobs : List Job) : List Job :=
  jobs.map (fun j =>
    if ids.contains j.id then { j with status := JobStatus.Running } else j)

/-- Atomic effect of one claim statement: the returned id set and the table
after the update. -/
def claimStep (n : Nat) (locked : List Int) (jobs : List Job) : List Int × List Job :=
  let ids := claimSelect n locked jobs
  (ids, markRunning ids jobs)

/-- Client-side decoding of one returned row into a JobRow, as sqlx maps the
RETURNING columns through serde. -/
def decodeRow (j : Job) : Except DecodeError JobRow :=
  match Payload.decode j.payload with
  | .error e => .error e
  | .ok p =>
    match j.params with
    | none => .ok { id := j.id, status := j.status, payload := p, params := none }
    | some pj =>
      match Params.decode pj with
      | .error e => .error e
      | .ok q => .ok { id := j.id, status := j.status, payload := p, params := some q }

/-- Decoding of the whole returned row set, failing on the first bad row. -/
def decodeRows : List Job → Except DecodeError (List JobRow)
  | [] => .ok []
  | j :: js =>
    match decodeRow j with
    | .error e => .error e
    | .ok r =>
      match decodeRows js with
      | .error e => .error e
      | .ok rs => .ok (r :: rs)

/-- Full claim round trip as main.rs performs it: the UPDATE commits at
statement end (the query runs on the pool with no surrounding transaction),
then the returned rows are decoded client side. The committed table is the
second component whatever the decode outcome. -/
def claimQuery (n : Nat) (locked : List Int) (jobs : List Job) :
    Except DecodeError (List JobRow) × List Job :=
  let ids := claimSelect n locked jobs
  let committed := markRunning ids jobs
  (decodeRows (committed.filter (fun j => ids.contains j.id)), committed)

/-- Store with its id sequence: ids are assigned consecutively on insert and
never reused. -/
structure Store where
  nextId : Int
  jobs : List Job

/-- Empty store, sequence starting at 1. -/
def Store.init : Store := { nextId := 1, jobs := [] }

/-- Bulk insert of Queued rows with store-assigned consecutive ids, as the
INSERT of insert_jobs (status is always Queued there). -/
def Store.insert (s : Store) (rows : List (JsonVal × Option JsonVal)) : Store :=
  { nextId := s.nextId + rows.length
  , jobs := s.jobs ++ rows.enum.map (fun kr =>
      { id := s.nextId + kr.1
      , status := JobStatus.Queued
      , payload := kr.2.1
      , params := kr.2.2 }) }

/-- Claim statement applied to a store with no competing lock holder. -/
def Store.claim (s : Store) (n : Nat) : Store :=
  { s with jobs := (claimStep n [] s.jobs).2 }

/-- Operations the program performs against the store. -/
inductive Op where
  | insert (rows : List (JsonVal × Option JsonVal))
  | claim (n : Nat)

/-- Effect of one operation. -/
def applyOp (s : Store) : Op → Store
  | .insert rows => s.insert rows
  | .claim n => s.claim n

/-- Effect of a sequence of operations. -/
def runOps (s : Store) : List Op → Store
  | [] => s
  | op :: ops => runOps (applyOp s op) ops

/-- JSON stored for the no-op payload rows of insert_jobs. -/
def noopPayload : JsonVal := Payload.encode Payload.NOOP

/-- JSON stored for the email payload rows of insert_jobs. -/
def emailPayload : JsonVal := Payload.encode (Payload.SendEmail "user@example.com")

/-- The twenty (payload, params) tuples inserted by insert_jobs, in VALUES
order: payloads alternate no-op and email; rows 2, 7 and 14 carry params
Params.NOOP, FollowUp true and FollowUp false, the rest carry NULL. -/
def insert_jobs : List (JsonVal × Option JsonVal) :=
  [ (noopPayload, none)
  , (emailPayload, some (Params.encode Params.NOOP))
  , (noopPayload, none)
  , (emailPayload, none)
  , (noopPayload, none)
  , (emailPayload, none)
  , (noopPayload, some (Params.encode (Params.FollowUp true)))
  , (emailPayload, none)
  , (noopPayload, none)
  , (emailPayload, none)
  , (noopPayload, none)
  , (emailPayload, none)
  , (noopPayload, none)
  , (emailPayload, some (Params.encode (Params.FollowUp false)))
  , (noopPayload, none)
  , (emailPayload, none)
  , (noopPayload, none)
  , (emailPayload, none)
  , (noopPayload, none)
  , (emailPayload, none) ]

/-- Rank of a status along the forward direction Queued, Running, Failed. -/
def statusRank : JobStatus → Nat
  | .Queued => 0
  | .Running => 1
  | .Failed => 2

/-- Ids of the Queued rows of a table. -/
def queuedIds (jobs : List Job) : List Int :=
  (jobs.filter (fun j => j.status == JobStatus.Queued)).map (fun j => j.id)

/-- Membership reading of List.contains on id lists. -/
theorem contains_iff_mem {l : List Int} {a : Int} : l.contains a = true ↔ a ∈ l :=
  List.elem_iff

/-- Every id returned by the selection phase names a Queued row of the table
whose lock is not held by the competing transaction. -/
theorem mem_claimSelect {n : Nat} {locked : List Int} {jobs : List Job} {i : Int}
    (h : i ∈ claimSelect n locked jobs) :
    ∃ j ∈ jobs, j.id = i ∧ j.status = JobStatus.Queued ∧ i ∉ locked := by
  unfold claimSelect at h
  have h1 := List.mem_of_mem_take h
  rw [List.mem_insertionSort] at h1
  obtain ⟨j, hj, hid⟩ := List.mem_map.mp h1
  obtain ⟨hjm, hpred⟩ := List.mem_filter.mp hj
  simp only [Bool.and_eq_true, beq_iff_eq, Bool.not_eq_true'] at hpred
  refine ⟨j, hjm, hid, hpred.1, fun hmem => ?_⟩
  rw [contains_iff_mem.mpr (hid ▸ hmem)] at hpred
  exact Bool.true_eq_false.mp hpred.2

/-- Rows of the updated table whose id was selected carry status Running. -/
theorem status_of_markRunning {ids : List Int} {jobs : List Job} {j : Job}
    (hj : j ∈ markRunning ids jobs) (hid : j.id ∈ ids) : j.status = JobStatus.Running := by
  unfold markRunning at hj
  obtain ⟨j0, hj0, hf⟩ := List.mem_map.mp hj
  by_cases hc : ids.contains j0.id
  · rw [if_pos hc] at hf
    rw [← hf]
  · rw [if_neg hc] at hf
    subst hf
    rw [contains_iff_mem] at hc
    exact absurd hid hc

/-- Rows of the updated table whose id was not selected are rows of the
original table, unchanged. -/
theorem markRunning_not_selected {ids : List Int} {jobs : List Job} {j : Job}
    (hj : j ∈ markRunning ids jobs) (hid : j.id ∉ ids) : j ∈ jobs := by
  unfold markRunning at hj
  obtain ⟨j0, hj0, hf⟩ := List.mem_map.mp hj
  by_cases hc : ids.contains j0.id
  · rw [if_pos hc] at hf
    rw [contains_iff_mem] at hc
    exact absurd (hf ▸ hid) (fun hn => hn hc)
  · rw [if_neg hc] at hf
    exact hf ▸ hj0

/-- C4: for every known Payload variant and every known Params variant,
decoding the serde encoding of the variant yields the original variant. -/
theorem codec_round_trip :
    (∀ p : Payload, Payload.decode (Payload.encode p) = .ok p) ∧
    (∀ q : Params, Params.decode (Params.encode q) = .ok q) := by
  constructor
  · intro p
    cases p <;> simp [Payload.encode, Payload.decode, findField]
  · intro q
    cases q <;> simp [Params.encode, Params.decode]

/-- C5: decoding a JSON value whose variant tag lies outside the known
variant set of Payload (respectively Params) always fails with a
DecodeError; it never succeeds with some default variant. -/
theorem unknown_tag_rejected (v : JsonVal) (t : String) (htag : jsonTag v = some t) :
    (t ≠ "NOOP" → t ≠ "SendEmail" → ∃ e, Payload.decode v = .error e) ∧
    (t ≠ "NOOP" → t ≠ "FollowUp" → ∃ e, Params.decode v = .error e) := by
  cases v with
  | jnull => simp [jsonTag] at htag
  | jbool b => simp [jsonTag] at htag
  | jstr s =>
    simp only [jsonTag, Option.some.injEq] at htag
    subst htag
    constructor
    · intro h1 h2
      simp [Payload.decode, h1, h2]
    · intro h1 h2
      simp [Params.decode, h1, h2]
  | jobj fields =>
    cases fields with
    | nil => simp [jsonTag] at htag
    | cons hd rest =>
      obtain ⟨k, c⟩ := hd
      simp only [jsonTag, Option.some.injEq] at htag
      subst htag
      constructor
      · intro h1 h2
        simp [Payload.decode, h1, h2]
      · intro h1 h2
        simp [Params.decode, h1, h2]

/-- Witness for C5 at the concrete unknown tag Garbage. -/
theorem unknown_tag_rejected_witness :
    (∃ e, Payload.decode (JsonVal.jstr "Garbage") = .error e) ∧
    (∃ e, Params.decode (JsonVal.jstr "Garbage") = .error e) := by
  have h := unknown_tag_rejected (JsonVal.jstr "Garbage") "Garbage" rfl
  exact ⟨h.1 (by decide) (by decide), h.2 (by decide) (by decide)⟩

/-- C10: conversion of a JobRow never looks at the params field: two rows
agreeing on id, status and payload convert to identical results, whatever
their params; the DomainJob shape carries no params at all. -/
theorem conversion_ignores_params (r1 r2 : JobRow)
    (hid : r1.id = r2.id) (hst : r1.status = r2.status) (hpl : r1.payload = r2.payload) :
    DomainJob.tryFrom r1 = DomainJob.tryFrom r2 := by
  unfold DomainJob.tryFrom
  rw [hid, hst, hpl]

/-- Witness for C10: rows differing only in params convert identically. -/
theorem conversion_ignores_params_witness :
    DomainJob.tryFrom
        { id := 7, status := JobStatus.Running, payload := Payload.NOOP, params := none } =
      DomainJob.tryFrom
        { id := 7, status := JobStatus.Running, payload := Payload.NOOP
        , params := some (Params.FollowUp true) } :=
  conversion_ignores_params _ _ rfl rfl rfl

/-- C1: two concurrent claim statements against the same store state return
disjoint id sets. The statement is a single atomic UPDATE whose row locks are
held until its transaction ends, so the two executions serialize at the row
level; the later one either still sees the earlier locks (SKIP LOCKED drops
those rows from its selection) or sees the committed Running statuses (the
status filter drops them). Both serializations are covered. -/
theorem claim_mutual_exclusion (jobs : List Job) (n1 n2 : Nat) :
    List.Disjoint (claimStep n1 [] jobs).1
        (claimStep n2 ((claimStep n1 [] jobs).1) jobs).1 ∧
    List.Disjoint (claimStep n1 [] jobs).1
        (claimStep n2 [] ((claimStep n1 [] jobs).2)).1 := by
  constructor
  · intro i hi1 hi2
    obtain ⟨j, _, _, _, hnl⟩ := mem_claimSelect hi2
    exact hnl hi1
  · intro i hi1 hi2
    obtain ⟨j, hjm, hid, hq, _⟩ := mem_claimSelect hi2
    have hrun : j.status = JobStatus.Running :=
      status_of_markRunning hjm (hid ▸ hi1)
    rw [hq] at hrun
    exact JobStatus.noConfusion hrun

/-- C8: a claim run after an earlier claim, in any later table state where
the earlier returned ids are still Running, never returns one of those ids
again. -/
theorem sequential_claims_disjoint (jobs jobs2 : List Job) (n1 n2 : Nat)
    (hrun : ∀ j ∈ jobs2, j.id ∈ (claimStep n1 [] jobs).1 → j.status = JobStatus.Running) :
    List.Disjoint (claimStep n1 [] jobs).1 (claimStep n2 [] jobs2).1 := by
  intro i hi1 hi2
  obtain ⟨j, hjm, hid, hq, _⟩ := mem_claimSelect hi2
  have := hrun j hjm (hid ▸ hi1)
  rw [hq] at this
  exact JobStatus.noConfusion this

/-- Witness for C8 on the concrete scenario: after the first claim of five on
the twenty inserted jobs, the second claim returns none of the first five
ids. -/
theorem sequential_claims_disjoint_witness :
    List.Disjoint (claimStep 5 [] (Store.init.insert insert_jobs).jobs).1
      (claimStep 5 [] (Store.claim (Store.init.insert insert_jobs) 5).jobs).1 :=
  sequential_claims_disjoint (Store.init.insert insert_jobs).jobs
    (Store.claim (Store.init.insert insert_jobs) 5).jobs 5 5 (by decide)

/-- Counterexample to C3: in the table inserted by insert_jobs, the row with
id 7 stores the no-op payload (VALUES row seven binds parameter two, the
no-op JSON), not an email-send payload; it decodes to Payload.NOOP. -/
theorem job7_payload_not_email_cex :
    ((Store.init.insert insert_jobs).jobs.find? (fun j => j.id == 7)) =
      some { id := 7, status := JobStatus.Queued, payload := JsonVal.jstr "NOOP"
           , params := some (JsonVal.jobj [("FollowUp", JsonVal.jbool true)]) } ∧
    Payload.decode (JsonVal.jstr "NOOP") = .ok Payload.NOOP ∧
    Payload.NOOP ≠ Payload.SendEmail "user@example.com" := by
  decide

/-- C3 amended: after the insert of insert_jobs (twenty jobs, ids 1 to 20,
payloads alternating no-op and email), the job with id 7 carries a no-op
payload together with follow-up-true params; the second claim of five
returns its row decoded to exactly those inserted values, and converting
that claimed row yields a DomainJob whose payload equals the inserted no-op
payload (the DomainJob shape carries no params). -/
theorem job7_amended :
    ((Store.init.insert insert_jobs).jobs.find? (fun j => j.id == 7)).map
        (fun j => (j.payload, j.params)) =
      some (Payload.encode Payload.NOOP, some (Params.encode (Params.FollowUp true))) ∧
    (claimQuery 5 [] (Store.claim (Store.init.insert insert_jobs) 5).jobs).1 =
      .ok
        [ { id := 6, status := JobStatus.Running
          , payload := Payload.SendEmail "user@example.com", params := none }
        , { id := 7, status := JobStatus.Running
          , payload := Payload.NOOP, params := some (Params.FollowUp true) }
        , { id := 8, status := JobStatus.Running
          , payload := Payload.SendEmail "user@example.com", params := none }
        , { id := 9, status := JobStatus.Running
          , payload := Payload.NOOP, params := none }
        , { id := 10, status := JobStatus.Running
          , payload := Payload.SendEmail "user@example.com", params := none } ] ∧
    DomainJob.tryFrom
        { id := 7, status := JobStatus.Running, payload := Payload.NOOP
        , params := some (Params.FollowUp true) } =
      .ok { identifier := "BATCH(2)", status := JobStatus.Running, payload := Payload.NOOP } := by
  decide

/-- Counterexample to C6: on a batch holding a row whose id exceeds the u32
range between two convertible rows, the conversion loop of main produces no
output batch at all (the source panics at the failing row), instead of
excluding the bad row and returning the conversions of the other rows. -/
theorem conversion_batch_abort_cex :
    DomainJob.tryFrom
        { id := 1, status := JobStatus.Running, payload := Payload.NOOP, params := none } =
      .ok { identifier := "BATCH(0)", status := JobStatus.Running, payload := Payload.NOOP } ∧
    DomainJob.tryFrom
        { id := 3, status := JobStatus.Running, payload := Payload.NOOP, params := none } =
      .ok { identifier := "BATCH(1)", status := JobStatus.Running, payload := Payload.NOOP } ∧
    processBatch
        [ { id := 1, status := JobStatus.Running, payload := Payload.NOOP, params := none }
        , { id := 4294967296, status := JobStatus.Running, payload := Payload.NOOP, params := none }
        , { id := 3, status := JobStatus.Running, payload := Payload.NOOP, params := none } ] =
      .error TryFromIntError.outOfRange := by
  decide

/-- Auxiliary fact for C6: a batch holding a row whose conversion fails is
processed to an error by the conversion loop. -/
theorem processBatch_error_of_mem {batch : List JobRow} {r : JobRow} {e : TryFromIntError}
    (hr : r ∈ batch) (he : DomainJob.tryFrom r = .error e) :
    ∃ e2, processBatch batch = .error e2 := by
  induction batch with
  | nil => cases hr
  | cons a rest ih =>
    unfold processBatch
    cases hcase : DomainJob.tryFrom a with
    | error ea => exact ⟨ea, rfl⟩
    | ok d =>
      have hrest : r ∈ rest := by
        cases List.mem_cons.mp hr with
        | inl hra =>
          rw [hra, hcase] at he
          exact absurd he (fun hh => Except.noConfusion hh)
        | inr hm => exact hm
      obtain ⟨e2, h2⟩ := ih hrest
      exact ⟨e2, by rw [h2]⟩

/-- C6 amended: converting a row whose id lies outside the u32 identifier
range fails with the range error, and the conversion loop of main then
aborts the whole batch (the source panics via expect): no output batch is
produced, rather than the bad row alone being excluded. -/
theorem conversion_range_error_aborts_batch (batch : List JobRow) (r : JobRow)
    (hr : r ∈ batch) (hout : r.id < 0 ∨ u32Max < r.id) :
    DomainJob.tryFrom r = .error TryFromIntError.outOfRange ∧
    ∃ e, processBatch batch = .error e := by
  have he : DomainJob.tryFrom r = .error TryFromIntError.outOfRange := by
    unfold DomainJob.tryFrom
    rw [if_neg]
    intro hin
    cases hout with
    | inl h => exact absurd hin.1 (not_le.mpr h)
    | inr h => exact absurd hin.2 (not_le.mpr h)
  exact ⟨he, processBatch_error_of_mem hr he⟩

/-- Witness for C6 amended at a concrete two-row batch. -/
theorem conversion_range_error_aborts_batch_witness :
    DomainJob.tryFrom
        { id := 4294967296, status := JobStatus.Running, payload := Payload.NOOP, params := none } =
      .error TryFromIntError.outOfRange ∧
    ∃ e, processBatch
        [ { id := 1, status := JobStatus.Running, payload := Payload.NOOP, params := none }
        , { id := 4294967296, status := JobStatus.Running, payload := Payload.NOOP, params := none } ] =
      .error e :=
  conversion_range_error_aborts_batch _
    { id := 4294967296, status := JobStatus.Running, payload := Payload.NOOP, params := none }
    (by decide) (by decide)

/-- Stored row whose payload carries a tag outside the known variant set. -/
def garbageJob : Job :=
  { id := 1, status := JobStatus.Queued, payload := JsonVal.jstr "Garbage", params := none }

/-- Counterexample to C7: the claim statement of main runs on the pool with
no surrounding transaction, so the UPDATE commits at statement end and the
returned rows are decoded only afterwards on the client. On a table whose
single Queued row holds an undecodable payload, the claim reports a decode
error, yet the committed table shows that very row marked Running: the
status change is not rolled back and the undecodable row is left Running. -/
theorem decode_failure_still_commits_cex :
    (claimQuery 5 [] [garbageJob]).1 = .error (DecodeError.unknownVariant "Garbage") ∧
    (claimQuery 5 [] [garbageJob]).2 =
      [{ id := 1, status := JobStatus.Running, payload := JsonVal.jstr "Garbage"
       , params := none }] := by
  decide

/-- C7 amended: when decoding any claimed row fails, the error surfaces to
the caller (the source panics on it), but the status update has already been
committed: every selected row, the undecodable one included, is left marked
Running in the table. -/
theorem decode_failure_rows_running (jobs : List Job) (n : Nat) (e : DecodeError)
    (_hfail : (claimQuery n [] jobs).1 = .error e) :
    ∀ j ∈ (claimQuery n [] jobs).2, j.id ∈ claimSelect n [] jobs →
      j.status = JobStatus.Running := by
  intro j hj hid
  exact status_of_markRunning hj hid

/-- Witness for C7 amended on the concrete undecodable store. -/
theorem decode_failure_rows_running_witness :
    (claimQuery 5 [] [garbageJob]).1 = .error (DecodeError.unknownVariant "Garbage") ∧
    (∀ j ∈ (claimQuery 5 [] [garbageJob]).2, j.id ∈ claimSelect 5 [] [garbageJob] →
      j.status = JobStatus.Running) :=
  ⟨by decide, decode_failure_rows_running [garbageJob] 5 (DecodeError.unknownVariant "Garbage")
    (by decide)⟩

/-- Selection with no competing lock holder sorts exactly the Queued ids. -/
theorem claimSelect_nil_locked (n : Nat) (jobs : List Job) :
    claimSelect n [] jobs =
      (List.insertionSort (fun a b => a ≤ b) (queuedIds jobs)).take n := by
  have h : jobs.filter
        (fun j => j.status == JobStatus.Queued && !(([] : List Int).contains j.id)) =
      jobs.filter (fun j => j.status == JobStatus.Queued) :=
    List.filter_congr (fun j _ => by simp)
  unfold claimSelect queuedIds
  rw [h]

/-- C2: with no competing lock holder, one claim of n returns n of the
Queued ids (all of them when fewer than n exist), each returned id is
smaller than every Queued id left unreturned, and the updated table carries
status Running exactly on the returned ids, every other row being kept
unchanged. -/
theorem claim_fresh_smallest (jobs : List Job) (n : Nat) :
    ((claimStep n [] jobs).1.length = min n (queuedIds jobs).length) ∧
    (∀ i ∈ (claimStep n [] jobs).1, i ∈ queuedIds jobs) ∧
    (∀ i ∈ (claimStep n [] jobs).1, ∀ q ∈ queuedIds jobs,
        q ∉ (claimStep n [] jobs).1 → i < q) ∧
    (∀ j ∈ (claimStep n [] jobs).2,
        (j.id ∈ (claimStep n [] jobs).1 → j.status = JobStatus.Running) ∧
        (j.id ∉ (claimStep n [] jobs).1 → j ∈ jobs)) := by
  have hsel : (claimStep n [] jobs).1 =
      (List.insertionSort (fun a b => a ≤ b) (queuedIds jobs)).take n :=
    claimSelect_nil_locked n jobs
  refine ⟨?_, ?_, ?_, ?_⟩
  · rw [hsel, List.length_take]
    congr 1
    exact (List.perm_insertionSort (fun a b => a ≤ b) (queuedIds jobs)).length_eq
  · intro i hi
    rw [hsel] at hi
    exact (List.mem_insertionSort _).mp (List.mem_of_mem_take hi)
  · intro i hi q hq hqn
    rw [hsel] at hi hqn
    have hqs : q ∈ List.insertionSort (fun a b => a ≤ b) (queuedIds jobs) :=
      (List.mem_insertionSort _).mpr hq
    rw [← List.take_append_drop n
      (List.insertionSort (fun a b => a ≤ b) (queuedIds jobs))] at hqs
    cases List.mem_append.mp hqs with
    | inl hl => exact absurd hl hqn
    | inr hdrop =>
      have hsort : List.Sorted (fun a b => a ≤ b)
          (List.insertionSort (fun a b => a ≤ b) (queuedIds jobs)) :=
        List.sorted_insertionSort (fun a b => a ≤ b) (queuedIds jobs)
      have hle : i ≤ q := hsort.rel_of_mem_take_of_mem_drop hi hdrop
      exact lt_of_le_of_ne hle (fun he => hqn (he ▸ hi))
  · intro j hj
    exact ⟨fun hid => status_of_markRunning hj hid,
           fun hid => markRunning_not_selected hj hid⟩

/-- Ids of the rows of a table. -/
def jobIds (jobs : List Job) : List Int := jobs.map (fun j => j.id)

/-- Store well-formedness, as the schema enforces it: every id is below the
sequence value, and ids are pairwise distinct (primary key). -/
def Store.WF (s : Store) : Prop :=
  (∀ j ∈ s.jobs, j.id < s.nextId) ∧ (jobIds s.jobs).Nodup

/-- The empty initial store is well formed. -/
theorem Store.init_WF : Store.init.WF :=
  ⟨fun j hj => absurd hj (List.not_mem_nil j), List.nodup_nil⟩

/-- The update phase touches statuses only: ids are unchanged. -/
theorem jobIds_markRunning (ids : List Int) (jobs : List Job) :
    jobIds (markRunning ids jobs) = jobIds jobs := by
  unfold jobIds markRunning
  rw [List.map_map]
  apply List.map_congr_left
  intro j _
  show (if ids.contains j.id then { j with status := JobStatus.Running } else j).id = j.id
  split <;> rfl

/-- Every row of the updated table has the id of a row of the original one. -/
theorem mem_markRunning_id {ids : List Int} {jobs : List Job} {j : Job}
    (hj : j ∈ markRunning ids jobs) : ∃ j0 ∈ jobs, j.id = j0.id := by
  unfold markRunning at hj
  obtain ⟨j0, hj0, hf⟩ := List.mem_map.mp hj
  refine ⟨j0, hj0, ?_⟩
  rw [← hf]
  split <;> rfl

/-- Ids of the rows appended by a bulk insert. -/
theorem jobIds_insert (s : Store) (rows : List (JsonVal × Option JsonVal)) :
    jobIds (s.insert rows).jobs =
      jobIds s.jobs ++ List.map (fun k : Nat => s.nextId + (k : Int)) (List.range rows.length) := by
  unfold Store.insert jobIds
  rw [List.map_append, List.map_map]
  congr 1
  rw [← List.enum_map_fst rows, List.map_map]
  rfl

/-- One claim step keeps each existing row, at its id, with a status at
least as advanced: a Queued row may move to Running, no row moves back. -/
theorem rank_le_claim {n : Nat} {jobs : List Job} (hnd : (jobIds jobs).Nodup)
    (j : Job) (hj : j ∈ jobs) :
    ∃ j2 ∈ markRunning (claimSelect n [] jobs) jobs, j2.id = j.id ∧
      statusRank j.status ≤ statusRank j2.status := by
  refine ⟨if (claimSelect n [] jobs).contains j.id
            then { j with status := JobStatus.Running } else j,
          List.mem_map_of_mem _ hj, ?_, ?_⟩
  · split <;> rfl
  · by_cases hc : (claimSelect n [] jobs).contains j.id
    · rw [if_pos hc]
      obtain ⟨j1, hj1, hid1, hq1, _⟩ := mem_claimSelect (contains_iff_mem.mp hc)
      have : j1 = j := List.inj_on_of_nodup_map hnd hj1 hj hid1
      rw [← this, hq1]
      exact Nat.zero_le _
    · rw [if_neg hc]

/-- One operation keeps each existing row, at its id, with a status at least
as advanced. -/
theorem rank_le_applyOp {s : Store} (hwf : s.WF) (op : Op) (j : Job) (hj : j ∈ s.jobs) :
    ∃ j2 ∈ (applyOp s op).jobs, j2.id = j.id ∧
      statusRank j.status ≤ statusRank j2.status := by
  cases op with
  | insert rows => exact ⟨j, List.mem_append_left _ hj, rfl, le_refl _⟩
  | claim n => exact rank_le_claim hwf.2 j hj

/-- Well-formedness is preserved by every operation. -/
theorem WF_applyOp {s : Store} (hwf : s.WF) (op : Op) : (applyOp s op).WF := by
  cases op with
  | claim n =>
    constructor
    · intro j hj
      obtain ⟨j0, hj0, hid⟩ := mem_markRunning_id hj
      rw [hid]
      exact hwf.1 j0 hj0
    · show (jobIds (markRunning (claimSelect n [] s.jobs) s.jobs)).Nodup
      rw [jobIds_markRunning]
      exact hwf.2
  | insert rows =>
    constructor
    · intro j hj
      cases List.mem_append.mp hj with
      | inl hl =>
        calc j.id < s.nextId := hwf.1 j hl
          _ ≤ s.nextId + (rows.length : Int) :=
            le_add_of_nonneg_right (Int.natCast_nonneg _)
      | inr hr =>
        obtain ⟨kr, hkr, hf⟩ := List.mem_map.mp hr
        obtain ⟨k, row⟩ := kr
        obtain ⟨hk, _⟩ := List.mem_enum hkr
        rw [← hf]
        show s.nextId + (k : Int) < s.nextId + (rows.length : Int)
        exact add_lt_add_left (Nat.cast_lt.mpr hk) _
    · show (jobIds (s.insert rows).jobs).Nodup
      rw [jobIds_insert, List.nodup_append]
      refine ⟨hwf.2, ?_, ?_⟩
      · exact List.Nodup.map
          (fun a b h => Nat.cast_injective (add_left_cancel h))
          (List.nodup_range _)
      · intro a ha hb
        obtain ⟨j0, hj0, hid0⟩ := List.mem_map.mp ha
        obtain ⟨k, hk, hidk⟩ := List.mem_map.mp hb
        have hlt : a < s.nextId := hid0 ▸ hwf.1 j0 hj0
        have hge : s.nextId ≤ a := hidk ▸ le_add_of_nonneg_right (Int.natCast_nonneg _)
        exact absurd hlt (not_lt.mpr hge)

/-- Well-formedness is preserved by every operation sequence. -/
theorem WF_runOps {s : Store} (hwf : s.WF) (ops : List Op) : (runOps s ops).WF := by
  induction ops generalizing s with
  | nil => exact hwf
  | cons op rest ih => exact ih (WF_applyOp hwf op)

/-- Every operation sequence keeps each existing row, at its id, with a
status at least as advanced. -/
theorem rank_le_runOps {s : Store} (hwf : s.WF) (ops : List Op) (j : Job)
    (hj : j ∈ s.jobs) :
    ∃ j2 ∈ (runOps s ops).jobs, j2.id = j.id ∧
      statusRank j.status ≤ statusRank j2.status := by
  induction ops generalizing s j with
  | nil => exact ⟨j, hj, rfl, le_refl _⟩
  | cons op rest ih =>
    obtain ⟨j1, hj1, hid1, hr1⟩ := rank_le_applyOp hwf op j hj
    obtain ⟨j2, hj2, hid2, hr2⟩ := ih (WF_applyOp hwf op) j1 hj1
    exact ⟨j2, hj2, hid2.trans hid1, hr1.trans hr2⟩

/-- C9: in every store state reachable from the initial store by the
operations of the program (insert, claim), the status of a job only moves
forward along Queued, Running, Failed: a row observed later under the same
id never has a less advanced status, so a Running row is never seen Queued
again. -/
theorem status_monotonic (ops more : List Op) (j j2 : Job)
    (hj : j ∈ (runOps Store.init ops).jobs)
    (hj2 : j2 ∈ (runOps (runOps Store.init ops) more).jobs)
    (hid : j2.id = j.id) :
    statusRank j.status ≤ statusRank j2.status := by
  have hwf1 : (runOps Store.init ops).WF := WF_runOps Store.init_WF ops
  obtain ⟨j3, hj3, hid3, hr3⟩ := rank_le_runOps hwf1 more j hj
  have hwf2 : (runOps (runOps Store.init ops) more).WF := WF_runOps hwf1 more
  have hj32 : j3 = j2 := by
    apply List.inj_on_of_nodup_map hwf2.2 hj3 hj2
    show j3.id = j2.id
    rw [hid3, hid]
  rw [← hj32]
  exact hr3

/-- Witness for C9 on the concrete run: job 1 is Queued after the insert and
Running after a claim of five, a forward move. -/
theorem status_monotonic_witness :
    statusRank JobStatus.Queued ≤ statusRank JobStatus.Running :=
  status_monotonic [Op.insert insert_jobs] [Op.claim 5]
    { id := 1, status := JobStatus.Queued, payload := JsonVal.jstr "NOOP", params := none }
    { id := 1, status := JobStatus.Running, payload := JsonVal.jstr "NOOP", params := none }
    (by decide) (by decide) (by decide)

/-- Witness for C1 on the concrete twenty-job store, with both claims asking
for five rows. -/
theorem claim_mutual_exclusion_witness :
    List.Disjoint (claimStep 5 [] (Store.init.insert insert_jobs).jobs).1
      (claimStep 5 ((claimStep 5 [] (Store.init.insert insert_jobs).jobs).1)
        (Store.init.insert insert_jobs).jobs).1 :=
  (claim_mutual_exclusion (Store.init.insert insert_jobs).jobs 5 5).1

/-- Witness for C2 on the concrete twenty-job store: a claim of five returns
five ids, the queue holding twenty Queued rows. -/
theorem claim_fresh_smallest_witness :
    (claimStep 5 [] (Store.init.insert insert_jobs).jobs).1.length =
      min 5 (queuedIds (Store.init.insert insert_jobs).jobs).length :=
  (claim_fresh_smallest (Store.init.insert insert_jobs).jobs 5).1
